import Mathlib

/-!
Verification of the device-tree builder of `gem5` `RiscvBoard`
(`src/python/gem5/components/boards/riscv_board.py`).

The board file itself is the authority for the tree-building logic
(`generate_device_tree`, `set_workload`, `RiscvBoard.__init__`).  The helper
library `m5.util.fdthelper` (`FdtState`, `FdtNode`, property classes, the two
file writers) is not part of the sources, so those pieces are modelled from
the specification: each such definition carries a doc comment starting with
`Modelled from the spec:`.
-/

namespace RiscvBoardModel

/-! ## Data model: property values, properties, nodes (spec section 3) -/

/-- Modelled from the spec: the closed variant of property values
(`Words`, `Strings`, `Flag`; the `Bytes` case never occurs in this board). -/
inductive FdtValue where
  | words (ws : List Nat)
  | strings (ss : List String)
  | flag
deriving DecidableEq, Repr

/-- Modelled from the spec: a named, typed property attached to a node. -/
structure FdtProperty where
  name : String
  value : FdtValue
deriving DecidableEq, Repr

/-- Modelled from the spec: a named tree element with an ordered property
list and an ordered child list, both preserved verbatim. -/
inductive FdtNode where
  | mk (name : String) (props : List FdtProperty) (children : List FdtNode)

def FdtNode.name : FdtNode → String
  | .mk n _ _ => n

def FdtNode.props : FdtNode → List FdtProperty
  | .mk _ ps _ => ps

def FdtNode.children : FdtNode → List FdtNode
  | .mk _ _ cs => cs

instance : Inhabited FdtNode := ⟨.mk "" [] []⟩

/-- Append properties at the end of a node's property list
(`FdtNode.append` for properties, insertion order preserved). -/
def appendProps (n : FdtNode) (ps : List FdtProperty) : FdtNode :=
  match n with
  | .mk nm pr ch => .mk nm (pr ++ ps) ch

/-- First property of the given name whose value is a word list. -/
def findWords : List FdtProperty → String → Option (List Nat)
  | [], _ => none
  | p :: rest, nm =>
    if p.name = nm then
      match p.value with
      | .words ws => some ws
      | _ => none
    else findWords rest nm

/-- First `Words` property named `nm` of node `n`. -/
def FdtNode.propWords (n : FdtNode) (nm : String) : Option (List Nat) :=
  findWords n.props nm

/-! ## Phandle allocation (spec sections 3 and 4.1)

Modelled from the spec: `FdtState.phandle` of `m5.util.fdthelper` is not under
`src/`.  Per the spec, each `CellState` owns a `phandle_table` mapping
reference keys to integer handles; a handle is allocated lazily on first
request for a key, starting at 1 and incrementing, and never changes for that
key afterwards.  The table is an ordered association list so that allocation
order is observable.  Keys are modelled as a structured type whose equality
coincides with equality of the source's string keys (`f"cpu@{i}.int_state"`,
`f"cpu@{i}"`) and object keys (the PLIC object). -/

inductive PhandleKey where
  | cpuIntState (i : Nat)
  | cpuNode (i : Nat)
  | plicObj
deriving DecidableEq, Repr

/-- Lookup of a key in a phandle table (first match). -/
def phandleLookup {α : Type} [DecidableEq α] : List (α × Nat) → α → Option Nat
  | [], _ => none
  | (k', v) :: rest, k => if k' = k then some v else phandleLookup rest k

/-- Modelled from the spec: `phandle_for(key)` — return the existing handle
for `key`, or lazily allocate the next handle (starting at 1, incrementing).
Returns the handle together with the updated table; total, never fails. -/
def phandle {α : Type} [DecidableEq α] (t : List (α × Nat)) (k : α) :
    Nat × List (α × Nat) :=
  match phandleLookup t k with
  | some v => (v, t)
  | none => (t.length + 1, t ++ [(k, t.length + 1)])

/-- The table reached after allocating (in order) each key of `ks`,
starting from a fresh `CellState`. -/
def runAlloc {α : Type} [DecidableEq α] (ks : List α) : List (α × Nat) :=
  ks.foldl (fun t k => (phandle t k).2) []

/-- Invariant of a phandle table: the handles are exactly `s, s+1, ...` in
storage order (a fresh table satisfies it with `s = 1`). -/
def handlesFrom {α : Type} (s : Nat) (t : List (α × Nat)) : Prop :=
  t.map Prod.snd = List.range' s t.length

theorem handlesFrom_nil {α : Type} (s : Nat) : handlesFrom s ([] : List (α × Nat)) := by
  simp [handlesFrom]

theorem phandleLookup_mem {α : Type} [DecidableEq α] {t : List (α × Nat)} {k : α} {v : Nat}
    (h : phandleLookup t k = some v) : v ∈ t.map Prod.snd := by
  induction t with
  | nil => simp [phandleLookup] at h
  | cons p rest ih =>
    obtain ⟨k', v'⟩ := p
    simp only [phandleLookup] at h
    by_cases hk : k' = k
    · simp [hk] at h
      simp [h]
    · simp [hk] at h
      simp [ih h]

theorem phandleLookup_append_none {α : Type} [DecidableEq α] {t : List (α × Nat)} {k : α}
    (h : phandleLookup t k = none) (l : List (α × Nat)) :
    phandleLookup (t ++ l) k = phandleLookup l k := by
  induction t with
  | nil => simp
  | cons p rest ih =>
    obtain ⟨k', v'⟩ := p
    simp only [phandleLookup] at h ⊢
    by_cases hk : k' = k
    · simp [hk] at h
    · simp only [if_neg hk] at h ⊢
      exact ih h

theorem handlesFrom_bound {α : Type} [DecidableEq α] {s : Nat} {t : List (α × Nat)}
    {k : α} {v : Nat} (hp : handlesFrom s t) (h : phandleLookup t k = some v) :
    s ≤ v ∧ v < s + t.length := by
  have hv := phandleLookup_mem h
  rw [hp] at hv
  exact (List.mem_range'_1).1 hv

/-- Two distinct keys found in a table with ascending handles have distinct
handles (each storage slot has a unique handle, and a slot has one key). -/
theorem phandleLookup_injective {α : Type} [DecidableEq α] {s : Nat} {t : List (α × Nat)}
    {k k' : α} {v v' : Nat} (hp : handlesFrom s t) (hk : k ≠ k')
    (h1 : phandleLookup t k = some v) (h2 : phandleLookup t k' = some v') : v ≠ v' := by
  induction t generalizing s with
  | nil => simp [phandleLookup] at h1
  | cons p rest ih =>
    obtain ⟨k0, v0⟩ := p
    have hp' : v0 = s ∧ handlesFrom (s + 1) rest := by
      simp only [handlesFrom, List.map_cons, List.length_cons, List.range'_succ,
        List.cons.injEq] at hp
      exact ⟨hp.1, hp.2⟩
    obtain ⟨hv0, hrest⟩ := hp'
    simp only [phandleLookup] at h1 h2
    by_cases e1 : k0 = k
    · have e2 : ¬ (k0 = k') := fun h => hk (e1 ▸ h)
      simp [e1] at h1
      simp [e2] at h2
      have := handlesFrom_bound hrest h2
      omega
    · by_cases e2 : k0 = k'
      · simp [e1] at h1
        simp [e2] at h2
        have := handlesFrom_bound hrest h1
        omega
      · simp [e1] at h1
        simp [e2] at h2
        exact ih hrest h1 h2

theorem handlesFrom_phandle {α : Type} [DecidableEq α] {t : List (α × Nat)}
    (hp : handlesFrom 1 t) (k : α) : handlesFrom 1 (phandle t k).2 := by
  unfold phandle
  match h : phandleLookup t k with
  | some v => exact hp
  | none =>
    simp only [handlesFrom, List.map_append, List.length_append, List.map_cons,
      List.map_nil, List.length_cons, List.length_nil]
    rw [hp]
    rw [show t.length + (0 + 1) = t.length + 1 from by omega, List.range'_1_concat]
    simp [Nat.add_comm]

theorem handlesFrom_runAlloc {α : Type} [DecidableEq α] (ks : List α) :
    handlesFrom 1 (runAlloc ks) := by
  suffices h : ∀ t : List (α × Nat), handlesFrom 1 t →
      handlesFrom 1 (ks.foldl (fun t k => (phandle t k).2) t) by
    exact h [] (handlesFrom_nil 1)
  induction ks with
  | nil => intro t ht; simpa using ht
  | cons k rest ih =>
    intro t ht
    simpa using ih _ (handlesFrom_phandle ht k)

theorem phandle_found {α : Type} [DecidableEq α] {t : List (α × Nat)} {k : α} {v : Nat}
    (h : phandleLookup t k = some v) : phandle t k = (v, t) := by
  simp [phandle, h]

theorem phandle_fresh {α : Type} [DecidableEq α] {t : List (α × Nat)} {k : α}
    (h : phandleLookup t k = none) :
    phandle t k = (t.length + 1, t ++ [(k, t.length + 1)]) := by
  simp [phandle, h]

/-- A second request for the same key returns the same handle and leaves the
table unchanged. -/
theorem phandle_idem {α : Type} [DecidableEq α] (t : List (α × Nat)) (k : α) :
    phandle (phandle t k).2 k = ((phandle t k).1, (phandle t k).2) := by
  match h : phandleLookup t k with
  | some v =>
    rw [phandle_found h]
    simp [phandle_found h]
  | none =>
    rw [phandle_fresh h]
    have hl : phandleLookup (t ++ [(k, t.length + 1)]) k = some (t.length + 1) := by
      rw [phandleLookup_append_none h]
      simp [phandleLookup]
    simp [phandle_found hl]

/-- After any request for `k`, the table resolves `k` to the handle just
returned. -/
theorem phandleLookup_after {α : Type} [DecidableEq α] (t : List (α × Nat)) (k : α) :
    phandleLookup (phandle t k).2 k = some (phandle t k).1 := by
  match h : phandleLookup t k with
  | some v => rw [phandle_found h]; exact h
  | none =>
    rw [phandle_fresh h]
    simp only
    rw [phandleLookup_append_none h]
    simp [phandleLookup]

/-- Requests for distinct keys return distinct handles (from any table with
ascending handles, in particular any table reached from a fresh state). -/
theorem phandle_inj {α : Type} [DecidableEq α] {t : List (α × Nat)}
    (hp : handlesFrom 1 t) {k k' : α} (hk : k ≠ k') :
    (phandle (phandle t k).2 k').1 ≠ (phandle t k).1 := by
  have ht2 : handlesFrom 1 (phandle t k).2 := handlesFrom_phandle hp k
  have hlk : phandleLookup (phandle t k).2 k = some (phandle t k).1 :=
    phandleLookup_after t k
  match h' : phandleLookup (phandle t k).2 k' with
  | some v' =>
    rw [phandle_found h']
    simp only
    exact fun he => phandleLookup_injective ht2 (Ne.symm hk) h' hlk (by rw [he])
  | none =>
    rw [phandle_fresh h']
    simp only
    have hb := handlesFrom_bound ht2 hlk
    omega

/-! ## Cell encoding (spec section 4.1) -/

/-- Error raised when a value does not fit the active cell width. -/
inductive EncodingError where
  | overflow (value cells : Nat)
deriving DecidableEq, Repr

/-- Big-endian 32-bit word decomposition of `value` into `cells` words
(high word first). -/
def cellWords : Nat → Nat → List Nat
  | _, 0 => []
  | v, c + 1 => cellWords (v / 2 ^ 32) c ++ [v % 2 ^ 32]

/-- Modelled from the spec: `encode_address(value, cells)` of section 4.1
(`FdtState.addrCells` / `sizeCells` / `CPUAddrCells` of `m5.util.fdthelper`,
not under `src/`): fails with `EncodingError` when `value` requires more bits
than `cells*32` can represent, otherwise yields the big-endian word list. -/
def encode_address (value cells : Nat) : Except EncodingError (List Nat) :=
  if value < 2 ^ (32 * cells) then .ok (cellWords value cells)
  else .error (.overflow value cells)

/-- Modelled from the spec: `encode_cpu_reg` uses the same mechanism as
`encode_address` (spec section 4.1). -/
def encode_cpu_reg (core_index cells : Nat) : Except EncodingError (List Nat) :=
  encode_address core_index cells

theorem encode_address_ok {v c : Nat} {ws : List Nat}
    (h : encode_address v c = .ok ws) : ws = cellWords v c := by
  unfold encode_address at h
  split at h
  · simp only [Except.ok.injEq] at h
    exact h.symm
  · exact absurd h (by simp)

/-! ## External hardware facts consumed by `generate_device_tree`
(spec section 4.3: memory ranges, core count, clock frequency, on-chip and
off-chip device descriptors, interrupt-source count).  The disk descriptor is
fixed in `RiscvBoard.__init__` (lines 113–118); the others come from the
`HiFive` platform object, outside the sources, so they are inputs here. -/

structure MemRange where
  start : Nat
  size : Nat
deriving DecidableEq, Repr

structure PioDevice where
  pio_addr : Nat
  pio_size : Nat
deriving DecidableEq, Repr

structure BoardFacts where
  mem_ranges : List MemRange
  num_cores : Nat
  clk_freq : Nat
  clint : PioDevice
  plic : PioDevice
  plic_n_src : Nat
  uart : PioDevice
  uart_int_id : Nat
  disk : PioDevice
  disk_int_id : Nat
deriving Repr

/-! ## Tree construction (`generate_device_tree`, lines 232–379) -/

/-- Table type used by the build: keys as in the source. -/
abbrev BTable := List (PhandleKey × Nat)

/-- Hex rendering of a natural, as Python's `"%x"` (lowercase, no prefix). -/
def hexStr (n : Nat) : String := String.mk (Nat.toDigits 16 n)

def addrCellsProp (c : Nat) : FdtProperty := ⟨"#address-cells", .words [c]⟩

def sizeCellsProp (c : Nat) : FdtProperty := ⟨"#size-cells", .words [c]⟩

def interruptCellsProp (c : Nat) : FdtProperty := ⟨"#interrupt-cells", .words [c]⟩

def compatibleProp (ss : List String) : FdtProperty := ⟨"compatible", .strings ss⟩

/-- Memory nodes, one per range in input order (lines 246–256): name
`memory@<hex-start>`, `device_type = "memory"`, `reg` from `(start, size)`
in the root scope (`addr_cells = 2`, `size_cells = 2`). -/
def buildMemNodes : List MemRange → Except EncodingError (List FdtNode)
  | [] => .ok []
  | r :: rest =>
    match encode_address r.start 2, encode_address r.size 2 with
    | .ok a, .ok s =>
      match buildMemNodes rest with
      | .ok ns =>
        .ok (FdtNode.mk ("memory@" ++ hexStr r.start)
          [⟨"device_type", .strings ["memory"]⟩, ⟨"reg", .words (a ++ s)⟩] [] :: ns)
      | .error e => .error e
    | .error e, _ => .error e
    | _, .error e => .error e

/-- The cpu nodes (lines 267–290), one per core index, threading the
root-scope `FdtState`'s phandle table: per core `i` the source allocates
`cpu@{i}.int_state` in the root state (line 278), appends a `phandle`
property through a throw-away state (`appendPhandle`, line 279), and reads
the same key through the fresh per-core `int_state` (line 283). -/
def buildCpuNodes (freq : Nat) (t : BTable) :
    List Nat → Except EncodingError (List FdtNode × BTable)
  | [] => .ok ([], t)
  | i :: rest =>
    match encode_cpu_reg i 1 with
    | .error e => .error e
    | .ok reg =>
      let alloc := phandle t (PhandleKey.cpuIntState i)
      let nodePh := phandle ([] : BTable) (PhandleKey.cpuNode i)
      let intPh := phandle ([] : BTable) (PhandleKey.cpuIntState i)
      let int_node := FdtNode.mk "interrupt-controller"
        [interruptCellsProp 1, ⟨"interrupt-controller", .flag⟩,
         compatibleProp ["riscv,cpu-intc"], ⟨"phandle", .words [intPh.1]⟩] []
      let node := FdtNode.mk ("cpu@" ++ toString i)
        [⟨"device_type", .strings ["cpu"]⟩, ⟨"reg", .words reg⟩,
         ⟨"mmu-type", .strings ["riscv,sv48"]⟩, ⟨"status", .strings ["okay"]⟩,
         ⟨"riscv,isa", .strings ["rv64imafdc"]⟩, ⟨"clock-frequency", .words [freq]⟩,
         compatibleProp ["riscv"], ⟨"phandle", .words [nodePh.1]⟩]
        [int_node]
      match buildCpuNodes freq alloc.2 rest with
      | .ok (ns, t') => .ok (node :: ns, t')
      | .error e => .error e

/-- Modelled from the spec: `generateBasicPioDeviceNode` (spec section 4.3
step 5, not under `src/`): a node named `<name>@<hex-addr>` whose only
property is `reg` encoded from `(pio_addr, pio_size)` in the supplied soc
scope (`addr_cells = 2`, `size_cells = 2`). -/
def basicPioNode (nm : String) (addr size : Nat) : Except EncodingError FdtNode :=
  match encode_address addr 2, encode_address size 2 with
  | .ok a, .ok s =>
    .ok (FdtNode.mk (nm ++ "@" ++ hexStr addr) [⟨"reg", .words (a ++ s)⟩] [])
  | .error e, _ => .error e
  | _, .error e => .error e

/-- The CLINT `interrupts-extended` loop (lines 306–312): over cores in
ascending order, `(phandle, 0x3)` then `(phandle, 0x7)`, with the phandles
requested from the soc-scope state (line 308). -/
def clintLoop (t : BTable) : List Nat → List Nat × BTable
  | [] => ([], t)
  | i :: rest =>
    let a := phandle t (PhandleKey.cpuIntState i)
    let r := clintLoop a.2 rest
    (a.1 :: 0x3 :: a.1 :: 0x7 :: r.1, r.2)

/-- The PLIC `interrupts-extended` loop (lines 333–339): over cores in
ascending order, `(phandle, 0xB)` then `(phandle, 0x9)`, with the phandles
requested from the root-scope state (line 335). -/
def plicLoop (t : BTable) : List Nat → List Nat × BTable
  | [] => ([], t)
  | i :: rest =>
    let a := phandle t (PhandleKey.cpuIntState i)
    let r := plicLoop a.2 rest
    (a.1 :: 0xB :: a.1 :: 0x9 :: r.1, r.2)

/-- Result of a build: the finished root node together with the final phandle
tables of the root-scope `FdtState` (`state`, line 240) and of the soc-scope
`FdtState` (`soc_state`, line 295). -/
structure BuildResult where
  root : FdtNode
  state : BTable
  soc_state : BTable

instance : Inhabited BuildResult := ⟨⟨default, [], []⟩⟩

/-- The pure tail of `generate_device_tree` (lines 258–374): assembles the
cpus node, the four soc device nodes (CLINT, PLIC, UART, virtio disk — in the
source's append order, lines 317/345/360/372) and the root node, from the
already-encoded pieces. -/
def assembleTree (b : BoardFacts) (memNodes cpuNodes : List FdtNode) (state1 : BTable)
    (clintBase plicBase uartBase diskBase : FdtNode) : BuildResult :=
  let cpus_node := FdtNode.mk "cpus"
    [addrCellsProp 1, sizeCellsProp 0, ⟨"timebase-frequency", .words [10000000]⟩]
    cpuNodes
  let clintRes := clintLoop ([] : BTable) (List.range b.num_cores)
  let clint_node := appendProps clintBase
    [⟨"interrupts-extended", .words clintRes.1⟩, compatibleProp ["riscv,clint0"]]
  let plicPh := phandle ([] : BTable) PhandleKey.plicObj
  let plicRes := plicLoop state1 (List.range b.num_cores)
  let plic_node := appendProps plicBase
    [addrCellsProp 0, interruptCellsProp 1, ⟨"phandle", .words [plicPh.1]⟩,
     ⟨"riscv,ndev", .words [b.plic_n_src - 1]⟩,
     ⟨"interrupts-extended", .words plicRes.1⟩,
     ⟨"interrupt-controller", .flag⟩, compatibleProp ["riscv,plic0"]]
  let uartPh := phandle clintRes.2 PhandleKey.plicObj
  let uart_node := appendProps uartBase
    [⟨"interrupts", .words [b.uart_int_id]⟩, ⟨"clock-frequency", .words [0x384000]⟩,
     ⟨"interrupt-parent", .words [uartPh.1]⟩, compatibleProp ["ns8250"]]
  let diskPh := phandle uartPh.2 PhandleKey.plicObj
  let disk_node := appendProps diskBase
    [⟨"interrupts", .words [b.disk_int_id]⟩,
     ⟨"interrupt-parent", .words [diskPh.1]⟩, compatibleProp ["virtio,mmio"]]
  let soc_node := FdtNode.mk "soc"
    [addrCellsProp 2, sizeCellsProp 2, ⟨"ranges", .flag⟩, compatibleProp ["simple-bus"]]
    [clint_node, plic_node, uart_node, disk_node]
  let root := FdtNode.mk "/"
    [addrCellsProp 2, sizeCellsProp 2, compatibleProp ["riscv-virtio"]]
    (memNodes ++ [cpus_node, soc_node])
  { root := root, state := plicRes.2, soc_state := diskPh.2 }

/-- The builder `generate_device_tree` (lines 232–374): root properties, memory nodes,
cpus subtree, soc subtree.  The fallible steps are the cell encodings, in the
source's evaluation order (memory ranges, cpu regs, then the four device
`reg` properties: clint, plic, uart, disk); everything else is pure and is
assembled by `assembleTree`. -/
def generate_device_tree (b : BoardFacts) : Except EncodingError BuildResult :=
  match buildMemNodes b.mem_ranges with
  | .error e => .error e
  | .ok memNodes =>
    match buildCpuNodes b.clk_freq ([] : BTable) (List.range b.num_cores) with
    | .error e => .error e
    | .ok (cpuNodes, state1) =>
      match basicPioNode "clint" b.clint.pio_addr b.clint.pio_size with
      | .error e => .error e
      | .ok clintBase =>
        match basicPioNode "plic" b.plic.pio_addr b.plic.pio_size with
        | .error e => .error e
        | .ok plicBase =>
          match basicPioNode "uart" b.uart.pio_addr b.uart.pio_size with
          | .error e => .error e
          | .ok uartBase =>
            match basicPioNode "virtio_mmio" b.disk.pio_addr b.disk.pio_size with
            | .error e => .error e
            | .ok diskBase =>
              .ok (assembleTree b memNodes cpuNodes state1
                clintBase plicBase uartBase diskBase)

/-! ## Output files (lines 376–379 and spec section 7)

The source serializes the finished tree to `device.dts` and then to
`device.dtb`, two separate sequential writes, both after the whole tree is
built.  The writers themselves (`Fdt.writeDtsFile` / `writeDtbFile`) are not
under `src/`; per spec section 7 either write can fail with `IOError`, which
is modelled by cutting the write sequence at the failing index. -/

inductive OutputFile where
  | dts
  | dtb
deriving DecidableEq, Repr

/-- The sequence of file writes performed by one call of
`generate_device_tree`: none when the build errors, otherwise `device.dts`
followed by `device.dtb` (lines 378–379). -/
def writeSequence (b : BoardFacts) : Except EncodingError (List OutputFile) :=
  match generate_device_tree b with
  | .error e => .error e
  | .ok _ => .ok [OutputFile.dts, OutputFile.dtb]

/-- Files actually written by an attempted write sequence. -/
def writesOf : Except EncodingError (List OutputFile) → List OutputFile
  | .ok ws => ws
  | .error _ => []

/-- Modelled from the spec: section 7 allows an `IOError` on either file
write.  `failIdx = some k` means the `k`-th write of the sequence fails (and
aborts the rest); the result is the list of files present on disk from this
build afterwards. -/
def filesOnDisk (ws : List OutputFile) (failIdx : Option Nat) : List OutputFile :=
  match failIdx with
  | none => ws
  | some k => ws.take k

/-- True iff the build completes without error. -/
def buildSucceeds (b : BoardFacts) : Bool :=
  match generate_device_tree b with
  | .ok _ => true
  | .error _ => false

/-! ## `set_workload` (lines 177–230) -/

/-- The board state assigned by `set_workload`: bootloader path into
`workload.object_file` (line 205), disk image into a copy-on-write image
(lines 207–211), the fixed kernel command line (line 213), the I/O device
and PMA setup (lines 217–219), the DTB load address (line 222) and the DTB
file name (lines 228–230).  The `command` parameter appears nowhere in the
body. -/
structure SetWorkloadResult where
  object_file : String
  vio_image_file : String
  vio_image_child_read_only : Bool
  vio_image_read_only : Bool
  command_line : String
  io_devices_setup : Bool
  pma_setup : Bool
  dtb_addr : Nat
  dtb_filename : String
deriving DecidableEq, Repr

/-- The method `RiscvBoard.set_workload` (lines 177–230), as the board state it
produces. -/
def set_workload (outdir bootloader disk_image : String) (command : Option String) :
    SetWorkloadResult :=
  { object_file := bootloader
    vio_image_file := disk_image
    vio_image_child_read_only := true
    vio_image_read_only := false
    command_line := "console=ttyS0 root=/dev/vda ro"
    io_devices_setup := true
    pma_setup := true
    dtb_addr := 0x87E00000
    dtb_filename := outdir ++ "/device.dtb" }

/-! ## `RiscvBoard.__init__` (lines 81–123) -/

/-- The RiscvBoard-specific state assembled by `__init__` after the Ruby
check: workload object, platform interrupt wiring, RTC, virtio disk and the
on-chip / off-chip device lists (lines 95–123). -/
structure RiscvBoardState where
  plic_n_contexts : Nat
  clint_num_threads : Nat
  rtc_freq_mhz : Nat
  disk_interrupt_id : Nat
  disk_pio_size : Nat
  disk_pio_addr : Nat
  on_chip_devices : List String
  off_chip_devices : List String
deriving DecidableEq, Repr

/-- The constructor `RiscvBoard.__init__` (lines 81–123): raises `EnvironmentError` when the
cache hierarchy is Ruby (lines 92–93), otherwise assembles the board state. -/
def riscvBoardInit (cache_is_ruby : Bool) (num_cores : Nat) :
    Except String RiscvBoardState :=
  if cache_is_ruby then .error "RiscvBoard is not compatible with Ruby"
  else .ok
    { plic_n_contexts := num_cores * 2
      clint_num_threads := num_cores
      rtc_freq_mhz := 100
      disk_interrupt_id := 0x8
      disk_pio_size := 4096
      disk_pio_addr := 0x10008000
      on_chip_devices := ["clint", "plic"]
      off_chip_devices := ["uart", "disk"] }

/-! ## Concrete scenarios used by the end-to-end claims -/

/-- End-to-end scenario A: one memory range `(0x80000000, 0x10000000)`, one
core, CLINT, PLIC with 1024 sources, one UART, one virtio disk (the disk
descriptor is the one fixed in `__init__`, lines 113–118). -/
def scenarioA : BoardFacts :=
  { mem_ranges := [⟨0x80000000, 0x10000000⟩]
    num_cores := 1
    clk_freq := 1000000000
    clint := ⟨0x2000000, 0x10000⟩
    plic := ⟨0xc000000, 0x4000000⟩
    plic_n_src := 1024
    uart := ⟨0x10000000, 0x8⟩
    uart_int_id := 0xa
    disk := ⟨0x10008000, 4096⟩
    disk_int_id := 0x8 }

/-- End-to-end scenario B: as scenario A but with 4 cores. -/
def scenarioB : BoardFacts := { scenarioA with num_cores := 4 }

/-- Boundary scenario: as scenario A but with zero cores. -/
def scenarioZero : BoardFacts := { scenarioA with num_cores := 0 }

/-- Failing scenario: a memory size needing 65 bits cannot be encoded into
the 2 size cells of the root scope. -/
def scenarioOverflow : BoardFacts :=
  { scenarioA with mem_ranges := [⟨0x80000000, 2 ^ 64⟩] }

def scenarioABuild : BuildResult := ((generate_device_tree scenarioA).toOption).getD default

def scenarioBBuild : BuildResult := ((generate_device_tree scenarioB).toOption).getD default

def scenarioZeroBuild : BuildResult :=
  ((generate_device_tree scenarioZero).toOption).getD default

/-! ## Extraction helpers -/

/-- The soc node of a build (last child of root, line 374). -/
def socOf (r : BuildResult) : FdtNode := (r.root.children.getLast?).getD default

/-- The cpus node of a build (child of root named `cpus`). -/
def cpusOf (r : BuildResult) : FdtNode :=
  (r.root.children.find? (fun c => c.name == "cpus")).getD default

/-- Names of the soc node's children, in order. -/
def socChildrenNames (r : BuildResult) : List String :=
  (socOf r).children.map FdtNode.name

/-- The image, under the success-case of the encoder, of one memory range
(lines 246–256). -/
def memNodeOf (r : MemRange) : FdtNode :=
  FdtNode.mk ("memory@" ++ hexStr r.start)
    [⟨"device_type", .strings ["memory"]⟩,
     ⟨"reg", .words (cellWords r.start 2 ++ cellWords r.size 2)⟩] []

/-- Spec-side description of an `interrupts-extended` word list: for each
core `i` in ascending order, the pair `(phandle_for(cpu@i.int_state), ctxA)`
then the pair `(phandle_for(cpu@i.int_state), ctxB)`, where in these builds
`phandle_for(cpu@i.int_state) = i + 1`. -/
def specIntExtended (ctxA ctxB n : Nat) : List Nat :=
  (List.range n).flatMap fun i => [i + 1, ctxA, i + 1, ctxB]

/-! ## Structural lemmas about the build -/

/-- The phandle table holding exactly the per-core interrupt-state keys of
cores `0..m-1`, in allocation order. -/
def cpuTable (m : Nat) : BTable :=
  (List.range m).map fun j => (PhandleKey.cpuIntState j, j + 1)

theorem phandleLookup_cpuTable (l : List Nat) (i : Nat) :
    phandleLookup (l.map fun j => (PhandleKey.cpuIntState j, j + 1))
      (PhandleKey.cpuIntState i) = if i ∈ l then some (i + 1) else none := by
  induction l with
  | nil => simp [phandleLookup]
  | cons j rest ih =>
    simp only [List.map_cons, phandleLookup, PhandleKey.cpuIntState.injEq]
    by_cases hj : j = i
    · subst hj
      simp
    · rw [if_neg hj, ih]
      simp [List.mem_cons, hj, Ne.symm hj]

theorem cpuTable_length (m : Nat) : (cpuTable m).length = m := by
  simp [cpuTable]

theorem phandle_cpuTable_hit {i m : Nat} (h : i < m) :
    phandle (cpuTable m) (PhandleKey.cpuIntState i) = (i + 1, cpuTable m) := by
  apply phandle_found
  rw [cpuTable, phandleLookup_cpuTable]
  simp [h]

theorem phandle_cpuTable_fresh (m : Nat) :
    phandle (cpuTable m) (PhandleKey.cpuIntState m) = (m + 1, cpuTable (m + 1)) := by
  have hl : phandleLookup (cpuTable m) (PhandleKey.cpuIntState m) = none := by
    rw [cpuTable, phandleLookup_cpuTable]
    simp
  rw [phandle_fresh hl, cpuTable_length]
  simp only [cpuTable, List.range_succ, List.map_append, List.map_cons, List.map_nil]

theorem clintLoop_range' (k m : Nat) :
    clintLoop (cpuTable m) (List.range' m k) =
      ((List.range' m k).flatMap fun i => [i + 1, 0x3, i + 1, 0x7], cpuTable (m + k)) := by
  induction k generalizing m with
  | zero => simp [clintLoop]
  | succ k ih =>
    rw [List.range'_succ]
    simp only [clintLoop, phandle_cpuTable_fresh m, ih (m + 1), List.flatMap_cons]
    rw [show m + 1 + k = m + (k + 1) from by omega]
    rfl

theorem clintLoop_eq (n : Nat) :
    clintLoop ([] : BTable) (List.range n) =
      (specIntExtended 0x3 0x7 n, cpuTable n) := by
  have h0 : ([] : BTable) = cpuTable 0 := by simp [cpuTable]
  rw [h0, List.range_eq_range', clintLoop_range' n 0, specIntExtended,
    List.range_eq_range']
  simp

theorem plicLoop_hits {n : Nat} (l : List Nat) (hl : ∀ i ∈ l, i < n) :
    plicLoop (cpuTable n) l =
      (l.flatMap fun i => [i + 1, 0xB, i + 1, 0x9], cpuTable n) := by
  induction l with
  | nil => simp [plicLoop]
  | cons i rest ih =>
    have hi : i < n := hl i (by simp)
    simp only [plicLoop, phandle_cpuTable_hit hi,
      ih (fun j hj => hl j (by simp [hj])), List.flatMap_cons]
    rfl

theorem plicLoop_eq (n : Nat) :
    plicLoop (cpuTable n) (List.range n) = (specIntExtended 0xB 0x9 n, cpuTable n) := by
  rw [plicLoop_hits (List.range n) (fun i hi => List.mem_range.1 hi), specIntExtended]

/-- The root-scope phandle table after the cpu loop holds exactly the
`cpu@i.int_state` keys with handles `1..k` in allocation order. -/
theorem buildCpuNodes_state (k : Nat) :
    ∀ m freq ns t', buildCpuNodes freq (cpuTable m) (List.range' m k) = .ok (ns, t') →
      t' = cpuTable (m + k) := by
  induction k with
  | zero =>
    intro m freq ns t' h
    simp only [List.range'_zero, buildCpuNodes, Except.ok.injEq, Prod.mk.injEq] at h
    rw [← h.2, Nat.add_zero]
  | succ k ih =>
    intro m freq ns t' h
    rw [List.range'_succ] at h
    simp only [buildCpuNodes] at h
    split at h
    · exact absurd h (by simp)
    · rw [phandle_cpuTable_fresh m] at h
      split at h
      next heq =>
        simp only [Except.ok.injEq, Prod.mk.injEq] at h
        have := ih (m + 1) freq _ _ heq
        rw [← h.2, this, show m + 1 + k = m + (k + 1) from by omega]
      next => exact absurd h (by simp)

theorem buildMemNodes_ok : ∀ (rs : List MemRange) (ns : List FdtNode),
    buildMemNodes rs = .ok ns → ns = rs.map memNodeOf := by
  intro rs
  induction rs with
  | nil => intro ns h; simp only [buildMemNodes, Except.ok.injEq] at h; simp [← h]
  | cons r rest ih =>
    intro ns h
    simp only [buildMemNodes] at h
    split at h
    next a s ha hs =>
      split at h
      next ns' hrest =>
        simp only [Except.ok.injEq] at h
        rw [← h, encode_address_ok ha, encode_address_ok hs, ih ns' hrest]
        simp [memNodeOf]
      next => exact absurd h (by simp)
    next => exact absurd h (by simp)
    next => exact absurd h (by simp)

theorem basicPioNode_ok {nm : String} {addr size : Nat} {n : FdtNode}
    (h : basicPioNode nm addr size = .ok n) :
    n = FdtNode.mk (nm ++ "@" ++ hexStr addr)
      [⟨"reg", .words (cellWords addr 2 ++ cellWords size 2)⟩] [] := by
  unfold basicPioNode at h
  split at h
  next a s ha hs =>
    simp only [Except.ok.injEq] at h
    rw [← h, encode_address_ok ha, encode_address_ok hs]
  next => exact absurd h (by simp)
  next => exact absurd h (by simp)

/-- Success-shape of `generate_device_tree`: every successful build is the
assembly of successfully encoded pieces. -/
theorem gdt_shape {b : BoardFacts} {res : BuildResult}
    (h : generate_device_tree b = .ok res) :
    ∃ memNodes cpuNodes state1 clintBase plicBase uartBase diskBase,
      buildMemNodes b.mem_ranges = .ok memNodes ∧
      buildCpuNodes b.clk_freq ([] : BTable) (List.range b.num_cores) =
        .ok (cpuNodes, state1) ∧
      basicPioNode "clint" b.clint.pio_addr b.clint.pio_size = .ok clintBase ∧
      basicPioNode "plic" b.plic.pio_addr b.plic.pio_size = .ok plicBase ∧
      basicPioNode "uart" b.uart.pio_addr b.uart.pio_size = .ok uartBase ∧
      basicPioNode "virtio_mmio" b.disk.pio_addr b.disk.pio_size = .ok diskBase ∧
      res = assembleTree b memNodes cpuNodes state1 clintBase plicBase uartBase diskBase := by
  unfold generate_device_tree at h
  split at h
  next => exact absurd h (by simp)
  next memNodes hmem =>
    split at h
    next => exact absurd h (by simp)
    next cpuNodes state1 hcpu =>
      split at h
      next => exact absurd h (by simp)
      next clintBase hclint =>
        split at h
        next => exact absurd h (by simp)
        next plicBase hplic =>
          split at h
          next => exact absurd h (by simp)
          next uartBase huart =>
            split at h
            next => exact absurd h (by simp)
            next diskBase hdisk =>
              simp only [Except.ok.injEq] at h
              exact ⟨memNodes, cpuNodes, state1, clintBase, plicBase, uartBase,
                diskBase, hmem, hcpu, hclint, hplic, huart, hdisk, h.symm⟩

/-- The CLINT node of a build (first child of the soc node, line 317). -/
def clintNodeOf (r : BuildResult) : FdtNode := ((socOf r).children.headD default)

/-- The PLIC node of a build (second child of the soc node, line 345). -/
def plicNodeOf (r : BuildResult) : FdtNode := (socOf r).children.getD 1 default

theorem specIntExtended_length (a b n : Nat) : (specIntExtended a b n).length = 4 * n := by
  induction n with
  | zero => simp [specIntExtended]
  | succ n ih =>
    rw [specIntExtended, List.range_succ, List.flatMap_append, List.length_append,
      ← specIntExtended, ih]
    simp [Nat.mul_add]

theorem getLast?_append_pair {α : Type} (l : List α) (c s : α) :
    (l ++ [c, s]).getLast? = some s := by
  simp [List.getLast?_append]

/-- The words stored under `interrupts-extended` in a node whose base carries
only the `reg` property. -/
theorem propWords_pio_intext (nm : String) (addr size : Nat) (ps : List FdtProperty)
    (ws : List Nat)
    (hfind : findWords ps "interrupts-extended" = some ws) :
    (appendProps (FdtNode.mk (nm ++ "@" ++ hexStr addr)
        [⟨"reg", .words (cellWords addr 2 ++ cellWords size 2)⟩] []) ps).propWords
      "interrupts-extended" = some ws := by
  simp only [appendProps, FdtNode.propWords, FdtNode.props, List.cons_append,
    List.nil_append, findWords]
  rw [if_neg (by decide)]
  exact hfind

/-! ## Claims -/

/-- C2: for every core count `N ≥ 1`, the `interrupts-extended` property
built for each on-chip interrupt device (timer/CLINT and distributor/PLIC)
contains exactly `2*N` `(phandle, context)` word-pairs, produced by iterating
the cores in ascending index order and, for each core, appending the pair
for its first fixed local context identifier (`0x3` for the CLINT, `0xB` for
the PLIC) then the pair for its second (`0x7`, resp. `0x9`); here
`phandle_for(cpu@i.int_state) = i + 1`. -/
theorem claim2_interrupts_extended (b : BoardFacts) (res : BuildResult)
    (hN : 1 ≤ b.num_cores) (h : generate_device_tree b = .ok res) :
    ((socOf res).children.length = 2 + 2 ∧
      (clintNodeOf res).propWords "interrupts-extended" =
        some (specIntExtended 0x3 0x7 b.num_cores) ∧
      (plicNodeOf res).propWords "interrupts-extended" =
        some (specIntExtended 0xB 0x9 b.num_cores)) ∧
    (specIntExtended 0x3 0x7 b.num_cores).length = 2 * (2 * b.num_cores) ∧
    (specIntExtended 0xB 0x9 b.num_cores).length = 2 * (2 * b.num_cores) := by
  obtain ⟨memNodes, cpuNodes, state1, clintBase, plicBase, uartBase, diskBase,
    hmem, hcpu, hclint, hplic, huart, hdisk, hres⟩ := gdt_shape h
  have hstate1 : state1 = cpuTable b.num_cores := by
    have hz : cpuTable 0 = ([] : BTable) := by simp [cpuTable]
    have := buildCpuNodes_state b.num_cores 0 b.clk_freq cpuNodes state1
    rw [hz, ← List.range_eq_range'] at this
    simpa using this hcpu
  have hc := basicPioNode_ok hclint
  have hp := basicPioNode_ok hplic
  subst hres hstate1 hc hp
  simp only [assembleTree, clintLoop_eq, plicLoop_eq]
  refine ⟨⟨?_, ?_, ?_⟩,
    by rw [specIntExtended_length]; omega, by rw [specIntExtended_length]; omega⟩
  · simp [socOf, FdtNode.children, getLast?_append_pair]
  · simp only [clintNodeOf, socOf, FdtNode.children, getLast?_append_pair,
      Option.getD_some, List.headD_cons]
    exact propWords_pio_intext _ _ _ _ _ (by simp [findWords])
  · simp only [plicNodeOf, socOf, FdtNode.children, getLast?_append_pair,
      Option.getD_some, List.getD_cons_succ, List.getD_cons_zero]
    exact propWords_pio_intext _ _ _ _ _ (by
      simp +decide [findWords, addrCellsProp, interruptCellsProp, compatibleProp])

/-- Witness for C2 at scenario A (one core). -/
theorem claim2_interrupts_extended_witness :
    1 ≤ scenarioA.num_cores ∧
    generate_device_tree scenarioA = .ok scenarioABuild ∧
    (((socOf scenarioABuild).children.length = 2 + 2 ∧
        (clintNodeOf scenarioABuild).propWords "interrupts-extended" =
          some (specIntExtended 0x3 0x7 scenarioA.num_cores) ∧
        (plicNodeOf scenarioABuild).propWords "interrupts-extended" =
          some (specIntExtended 0xB 0x9 scenarioA.num_cores)) ∧
      (specIntExtended 0x3 0x7 scenarioA.num_cores).length =
        2 * (2 * scenarioA.num_cores) ∧
      (specIntExtended 0xB 0x9 scenarioA.num_cores).length =
        2 * (2 * scenarioA.num_cores)) :=
  ⟨by decide, by rfl,
    claim2_interrupts_extended scenarioA scenarioABuild (by decide) (by rfl)⟩

/-- C1 counterexample: in end-to-end scenario A the first child of the soc
node is the timer (CLINT) node, not the interrupt-distributor (PLIC) node —
the claimed child order `[plic, clint, uart, disk]` is not the one built. -/
theorem claim1_counterexample :
    socChildrenNames scenarioABuild =
      ["clint@2000000", "plic@c000000", "uart@10000000", "virtio_mmio@10008000"] ∧
    socChildrenNames scenarioABuild ≠
      ["plic@c000000", "clint@2000000", "uart@10000000", "virtio_mmio@10008000"] := by
  constructor
  · rfl
  · intro hcontra
    exact absurd (rfl.trans hcontra) (by decide)

/-- C1 (amended): in the end-to-end scenario with one memory range, one core,
the on-chip CLINT and PLIC, one off-chip UART and one virtio disk, the soc
node's children are exactly the timer (CLINT) node, the
interrupt-distributor (PLIC) node, the UART node and the disk node, in that
order (source append order: lines 317, 345, 360, 372). -/
theorem claim1_soc_children_order :
    socChildrenNames scenarioABuild =
      ["clint@2000000", "plic@c000000", "uart@10000000", "virtio_mmio@10008000"] ∧
    (socOf scenarioABuild).children.length = 4 := ⟨rfl, rfl⟩

/-- C3: for the lifetime of one `CellState`, `phandle_for` is idempotent (a
second request for a key returns the same handle and leaves the table
unchanged), injective (requests for distinct keys return distinct handles),
starts at 1, and increments on the first request for a fresh key; it is a
total function, so it never fails. -/
theorem claim3_phandle_for {α : Type} [DecidableEq α] (ks : List α) (k k' : α)
    (hkk : k ≠ k') :
    phandle (phandle (runAlloc ks) k).2 k
        = ((phandle (runAlloc ks) k).1, (phandle (runAlloc ks) k).2) ∧
    (phandle (phandle (runAlloc ks) k).2 k').1 ≠ (phandle (runAlloc ks) k).1 ∧
    (phandle ([] : List (α × Nat)) k).1 = 1 ∧
    (phandleLookup (runAlloc ks) k = none →
      (phandle (runAlloc ks) k).1 = (runAlloc ks).length + 1) :=
  ⟨phandle_idem _ _,
   phandle_inj (handlesFrom_runAlloc ks) hkk,
   by simp [phandle, phandleLookup],
   fun hnone => by rw [phandle_fresh hnone]⟩

/-- Witness for C3 with two concrete distinct string keys. -/
theorem claim3_phandle_for_witness :
    ("b" ≠ "a") ∧
    (phandle (phandle (runAlloc ["a", "b"]) "b").2 "b"
        = ((phandle (runAlloc ["a", "b"]) "b").1, (phandle (runAlloc ["a", "b"]) "b").2) ∧
      (phandle (phandle (runAlloc ["a", "b"]) "b").2 "a").1
        ≠ (phandle (runAlloc ["a", "b"]) "b").1 ∧
      (phandle ([] : List (String × Nat)) "b").1 = 1 ∧
      (phandleLookup (runAlloc ["a", "b"]) "b" = none →
        (phandle (runAlloc ["a", "b"]) "b").1 = (runAlloc ["a", "b"]).length + 1)) :=
  ⟨by decide, claim3_phandle_for ["a", "b"] "b" "a" (by decide)⟩

/-- C4: with 4 cores (scenario B) the timer (CLINT) node's
`interrupts-extended` property has 8 `(phandle, context)` pairs — 16 words —
and exactly 4 phandles are allocated in the root-scope state for the keys
`cpu@0.int_state` … `cpu@3.int_state`, with values 1, 2, 3, 4 in allocation
order. -/
theorem claim4_four_cores :
    (clintNodeOf scenarioBBuild).propWords "interrupts-extended" =
      some [1, 0x3, 1, 0x7, 2, 0x3, 2, 0x7, 3, 0x3, 3, 0x7, 4, 0x3, 4, 0x7] ∧
    ([1, 0x3, 1, 0x7, 2, 0x3, 2, 0x7, 3, 0x3, 3, 0x7, 4, 0x3, 4, 0x7] :
      List Nat).length = 2 * 8 ∧
    scenarioBBuild.state =
      [(PhandleKey.cpuIntState 0, 1), (PhandleKey.cpuIntState 1, 2),
       (PhandleKey.cpuIntState 2, 3), (PhandleKey.cpuIntState 3, 4)] :=
  ⟨rfl, rfl, rfl⟩

/-- C5 counterexample: with zero cores the build does not fail (there is no
`ConfigError` check in `generate_device_tree`), and both output files are
written. -/
theorem claim5_counterexample :
    buildSucceeds scenarioZero = true ∧
    writesOf (writeSequence scenarioZero) = [OutputFile.dts, OutputFile.dtb] :=
  ⟨rfl, rfl⟩

/-- C5 (amended): with zero cores `generate_device_tree` raises no error: the
build succeeds, the cpus node has no cpu children, the timer node's
`interrupts-extended` property is empty, and both `device.dts` and
`device.dtb` are written. -/
theorem claim5_zero_cores :
    buildSucceeds scenarioZero = true ∧
    (cpusOf scenarioZeroBuild).children = [] ∧
    (clintNodeOf scenarioZeroBuild).propWords "interrupts-extended" = some [] ∧
    writesOf (writeSequence scenarioZero) = [OutputFile.dts, OutputFile.dtb] :=
  ⟨rfl, rfl, rfl, rfl⟩

/-- C6: encoding a 64-bit quantity into cell words fails with
`EncodingError` whenever the value needs more bits than `cells*32` can
represent; in particular a size needing 33 or more bits with
`size_cells = 1` fails. -/
theorem claim6_encoding_overflow (v c s : Nat) (hv : 2 ^ (32 * c) ≤ v)
    (hs : 2 ^ 32 ≤ s) :
    encode_address v c = .error (.overflow v c) ∧
    encode_address s 1 = .error (.overflow s 1) := by
  constructor
  · rw [encode_address, if_neg (Nat.not_lt.2 hv)]
  · rw [encode_address, if_neg (Nat.not_lt.2 (by simpa using hs))]

/-- Witness for C6 at a 65-bit value with 2 cells and a 33-bit size with
1 cell. -/
theorem claim6_encoding_overflow_witness :
    2 ^ (32 * 2) ≤ 2 ^ 64 ∧ 2 ^ 32 ≤ 2 ^ 33 ∧
    (encode_address (2 ^ 64) 2 = .error (.overflow (2 ^ 64) 2) ∧
      encode_address (2 ^ 33) 1 = .error (.overflow (2 ^ 33) 1)) :=
  ⟨by norm_num, by norm_num,
    claim6_encoding_overflow (2 ^ 64) 2 (2 ^ 33) (by norm_num) (by norm_num)⟩

/-- C7 counterexample: a successful build writes `device.dts` then
`device.dtb` sequentially; if the second write fails, the already-written
`device.dts` from this build remains on disk — neither "both files" nor
"neither file". -/
theorem claim7_counterexample :
    writesOf (writeSequence scenarioA) = [OutputFile.dts, OutputFile.dtb] ∧
    filesOnDisk (writesOf (writeSequence scenarioA)) (some 1) = [OutputFile.dts] ∧
    ([OutputFile.dts] ≠ ([] : List OutputFile)) ∧
    ([OutputFile.dts] ≠ [OutputFile.dts, OutputFile.dtb]) :=
  ⟨rfl, rfl, by decide, by decide⟩

/-- C7 (amended): when any error occurs during tree construction, the build
aborts before the write phase and no output file is written; the two
completed files are however written sequentially and not transactionally, so
a failure writing `device.dtb` leaves `device.dts` on disk. -/
theorem claim7_fail_fast (b : BoardFacts) (e : EncodingError)
    (h : generate_device_tree b = .error e) :
    writeSequence b = .error e ∧ writesOf (writeSequence b) = [] := by
  constructor
  · rw [writeSequence, h]
  · simp [writesOf, writeSequence, h]

/-- Witness for C7's fail-fast part at the overflowing memory size. -/
theorem claim7_fail_fast_witness :
    generate_device_tree scenarioOverflow =
      .error (.overflow (2 ^ 64) 2) ∧
    (writeSequence scenarioOverflow = .error (.overflow (2 ^ 64) 2) ∧
      writesOf (writeSequence scenarioOverflow) = []) :=
  ⟨by rfl, claim7_fail_fast scenarioOverflow (.overflow (2 ^ 64) 2) (by rfl)⟩

/-- C8: the root's children are the `memory@<hex-start>` nodes, one per
memory range in input order — each carrying `device_type = "memory"` and a
`reg` property encoded from `(start, size)` — followed by the cpus node and
the soc node, in that fixed order. -/
theorem claim8_root_children (b : BoardFacts) (res : BuildResult)
    (h : generate_device_tree b = .ok res) :
    ∃ cpus soc,
      res.root.children = b.mem_ranges.map memNodeOf ++ [cpus, soc] ∧
      cpus.name = "cpus" ∧ soc.name = "soc" ∧
      ∀ r ∈ b.mem_ranges,
        (memNodeOf r).name = "memory@" ++ hexStr r.start ∧
        (memNodeOf r).props =
          [⟨"device_type", .strings ["memory"]⟩,
           ⟨"reg", .words (cellWords r.start 2 ++ cellWords r.size 2)⟩] := by
  obtain ⟨memNodes, cpuNodes, state1, clintBase, plicBase, uartBase, diskBase,
    hmem, hcpu, hclint, hplic, huart, hdisk, hres⟩ := gdt_shape h
  have hmm := buildMemNodes_ok b.mem_ranges memNodes hmem
  subst hres hmm
  exact ⟨_, _, rfl, rfl, rfl, fun r _ => ⟨rfl, rfl⟩⟩

/-- Witness for C8 at scenario A. -/
theorem claim8_root_children_witness :
    generate_device_tree scenarioA = .ok scenarioABuild ∧
    ∃ cpus soc,
      scenarioABuild.root.children = scenarioA.mem_ranges.map memNodeOf ++ [cpus, soc] ∧
      cpus.name = "cpus" ∧ soc.name = "soc" ∧
      ∀ r ∈ scenarioA.mem_ranges,
        (memNodeOf r).name = "memory@" ++ hexStr r.start ∧
        (memNodeOf r).props =
          [⟨"device_type", .strings ["memory"]⟩,
           ⟨"reg", .words (cellWords r.start 2 ++ cellWords r.size 2)⟩] :=
  ⟨by rfl, claim8_root_children scenarioA scenarioABuild (by rfl)⟩

/-- C9: the `command` parameter of `set_workload` has no effect on the
resulting board state — two calls differing only in `command` yield
identical states — and the kernel command line is always the fixed string. -/
theorem claim9_command_no_effect (outdir bootloader disk_image : String)
    (c c' : Option String) :
    set_workload outdir bootloader disk_image c =
      set_workload outdir bootloader disk_image c' ∧
    (set_workload outdir bootloader disk_image c).command_line =
      "console=ttyS0 root=/dev/vda ro" :=
  ⟨rfl, rfl⟩

/-- C10: constructing a `RiscvBoard` over a Ruby cache hierarchy raises
`EnvironmentError` and no RiscvBoard state is assembled (the error carries
no state); a non-Ruby hierarchy passes the check and the state is
assembled. -/
theorem claim10_ruby_check (num_cores : Nat) :
    riscvBoardInit true num_cores = .error "RiscvBoard is not compatible with Ruby" ∧
    ∃ s, riscvBoardInit false num_cores = .ok s :=
  ⟨rfl, ⟨_, rfl⟩⟩

end RiscvBoardModel
